import Mathlib

/-!
Verification of the multi-venue market-data subsystem of CryptoTrackPro-Desktop.

Shallow embedding conventions:
* Decimal numeric strings of the source (prices, volumes, balances) are modeled
  by their exact rational values (`ℚ`); the numeric comparisons performed via
  `parseFloat` in the source become `ℚ` comparisons.
* JavaScript `Map` objects are modeled as lists of their entries in insertion
  order (`Array.from(map.values())` is the list itself); a `Map.set` on an
  existing key replaces the entry in place.
* `Date` / timestamp fields (`createdAt`, `lastUpdated`, ...) carry no
  information used by any verified property and are omitted from the records.
* Fallible code is modeled with `Option` / `Except`; `null`/`undefined`
  becomes `none`.
-/

namespace CryptoTrack

/-! ## Character-level models of the JavaScript string operations

The JavaScript string methods used by the source (`replace` with a
one-character pattern, `toLowerCase`, `endsWith`, `slice(0, -n)`, `split`)
are modeled on the character list of the string, so that every definition
evaluates by kernel reduction. -/

/-- Replace the first occurrence of `target` by `repl` in a character list
(`String.prototype.replace` with a string pattern replaces only the first
occurrence). -/
def jsReplaceFirstAux (target : Char) (repl : List Char) : List Char → List Char
  | [] => []
  | c :: cs => if c = target then repl ++ cs else c :: jsReplaceFirstAux target repl cs

/-- `s.replace(target, repl)` for a one-character pattern. -/
def jsReplaceFirst (s : String) (target : Char) (repl : List Char) : String :=
  String.mk (jsReplaceFirstAux target repl s.data)

/-- `s.toLowerCase()` (the symbols involved are ASCII). -/
def jsToLower (s : String) : String :=
  String.mk (s.data.map Char.toLower)

/-- `s.endsWith(q)`. -/
def jsEndsWith (s q : String) : Bool :=
  List.isSuffixOf q.data s.data

/-- `s.slice(0, -n)`: drop the last `n` characters. -/
def jsDropRight (s : String) (n : ℕ) : String :=
  String.mk (s.data.take (s.data.length - n))

/-- Helper of `jsSplit`: accumulate the current segment (reversed). -/
def jsSplitAux (sep : Char) : List Char → List Char → List (List Char)
  | [], acc => [acc.reverse]
  | c :: cs, acc =>
      if c = sep then acc.reverse :: jsSplitAux sep cs []
      else jsSplitAux sep cs (c :: acc)

/-- `s.split(sep)` for a one-character separator. -/
def jsSplit (s : String) (sep : Char) : List String :=
  (jsSplitAux sep s.data []).map String.mk

/-- Embeds the `exchanges` row type of `src/shared/schema.ts` (the `Exchange`
type stored by `MemStorage`); `createdAt` omitted (timestamp). -/
structure Exchange where
  id : ℕ
  name : String
  displayName : String
  isConnected : Bool
  apiKey : Option String
  apiSecret : Option String
  sandboxMode : Bool
  supportedAccountTypes : List String
  deriving DecidableEq, Repr

/-- Embeds the `ExchangePrice` record of `src/shared/schema.ts`
(`exchange_prices` table): one per-venue price sample; `lastUpdated` omitted. -/
structure ExchangePrice where
  id : ℕ
  exchangeId : ℕ
  symbol : String
  price : ℚ
  volume24h : Option ℚ
  deriving DecidableEq, Repr

/-- Embeds `InsertExchangePrice` (the insert shape without `id`). -/
structure InsertExchangePrice where
  exchangeId : ℕ
  symbol : String
  price : ℚ
  volume24h : Option ℚ
  deriving DecidableEq, Repr

/-- Embeds the `MarketData` record of `src/shared/schema.ts` (aggregated
per-symbol market data); `id` (randomly generated in `upsertMarketData`) and
`lastUpdated` omitted, neither is used by any verified property. -/
structure MarketData where
  symbol : String
  baseAsset : String
  quoteAsset : String
  price : ℚ
  change24h : Option ℚ
  changePercent24h : Option ℚ
  volume24h : Option ℚ
  deriving DecidableEq, Repr

/-- Embeds `InsertMarketData` (insert shape of `MarketData`). -/
abbrev InsertMarketData := MarketData

/-- Embeds the `Position` record of `src/shared/schema.ts` (timestamps
omitted). Only its unchanged-ness matters for the frame properties. -/
structure Position where
  id : ℕ
  exchangeId : ℕ
  symbol : String
  baseAsset : String
  quoteAsset : String
  accountType : String
  side : String
  size : ℚ
  entryPrice : ℚ
  markPrice : Option ℚ
  unrealizedPnl : Option ℚ
  realizedPnl : ℚ
  isActive : Bool
  deriving DecidableEq, Repr

/-- Embeds the `Alert` record of `src/shared/schema.ts` (timestamps omitted). -/
structure Alert where
  id : ℕ
  type : String
  targetType : String
  targetId : Option String
  condition : String
  threshold : ℚ
  currentValue : Option ℚ
  isTriggered : Bool
  isActive : Bool
  description : String
  deriving DecidableEq, Repr

/-- Embeds the `Order` record of `src/shared/schema.ts` (timestamps omitted). -/
structure Order where
  id : ℕ
  exchangeId : ℕ
  symbol : String
  accountType : String
  side : String
  type : String
  quantity : ℚ
  price : Option ℚ
  status : String
  externalOrderId : Option String
  errorMessage : Option String
  deriving DecidableEq, Repr

/-- Embeds the state of `MemStorage` (`src/unnamed/part_000x` storage file,
class `MemStorage`): each `Map` is the list of its values in insertion order;
`marketData : Map<string, MarketData>` keeps its key explicit. -/
structure MemStorage where
  exchanges : List Exchange
  positions : List Position
  alerts : List Alert
  orders : List Order
  marketData : List (String × MarketData)
  exchangePrices : List ExchangePrice
  currentExchangeId : ℕ
  currentPositionId : ℕ
  currentAlertId : ℕ
  currentOrderId : ℕ
  currentExchangePriceId : ℕ
  deriving Repr

/-- `MemStorage.getExchange`: `this.exchanges.get(id)`. -/
def getExchange (s : MemStorage) (id : ℕ) : Option Exchange :=
  s.exchanges.find? (fun e => e.id = id)

/-- `MemStorage.getExchangePricesBySymbol`:
`Array.from(this.exchangePrices.values()).filter(ep => ep.symbol === symbol)`. -/
def getExchangePricesBySymbol (s : MemStorage) (symbol : String) : List ExchangePrice :=
  s.exchangePrices.filter (fun ep => ep.symbol = symbol)

/-- `MemStorage.getMarketDataBySymbol`: `this.marketData.get(symbol)`. -/
def getMarketDataBySymbol (s : MemStorage) (symbol : String) : Option MarketData :=
  (s.marketData.find? (fun p => p.1 = symbol)).map (fun p => p.2)

/-- `Map.set` on the symbol-keyed `marketData` map: replace in place when the
key exists, append otherwise. -/
def mdMapSet (l : List (String × MarketData)) (k : String) (v : MarketData) :
    List (String × MarketData) :=
  if l.any (fun p => p.1 = k) then
    l.map (fun p => if p.1 = k then (k, v) else p)
  else
    l ++ [(k, v)]

/-- `MemStorage.upsertMarketData`: builds the stored record from the insert
data (the surviving `id`/`lastUpdated` handling touches only omitted fields)
and writes it at key `data.symbol`. -/
def upsertMarketData (s : MemStorage) (data : InsertMarketData) : MemStorage :=
  { s with marketData := mdMapSet s.marketData data.symbol data }

/-- `MemStorage.upsertExchangePrice`: find the first record with the same
`(exchangeId, symbol)`; update it in place (keeping its `id`) when present,
otherwise insert a fresh record under `currentExchangePriceId++`. -/
def upsertExchangePrice (s : MemStorage) (data : InsertExchangePrice) :
    MemStorage × ExchangePrice :=
  match s.exchangePrices.find?
      (fun ep => ep.exchangeId = data.exchangeId ∧ ep.symbol = data.symbol) with
  | some existing =>
      let updated : ExchangePrice :=
        { id := existing.id
          exchangeId := data.exchangeId
          symbol := data.symbol
          price := data.price
          volume24h := data.volume24h }
      -- Map.set(existing.id, updated): replace the entry keyed by that id
      ({ s with exchangePrices :=
          s.exchangePrices.map (fun ep => if ep.id = existing.id then updated else ep) },
        updated)
  | none =>
      let id := s.currentExchangePriceId
      let exchangePrice : ExchangePrice :=
        { id := id
          exchangeId := data.exchangeId
          symbol := data.symbol
          price := data.price
          volume24h := data.volume24h }
      ({ s with
          exchangePrices := s.exchangePrices ++ [exchangePrice]
          currentExchangePriceId := id + 1 },
        exchangePrice)

/-- `MemStorage.deleteExchangePricesForExchange`: collect the ids of the
entries whose `exchangeId` matches, then delete those ids from the id-keyed
map; returns whether anything was deleted. -/
def deleteExchangePricesForExchange (s : MemStorage) (exchangeId : ℕ) :
    MemStorage × Bool :=
  let toDelete :=
    (s.exchangePrices.filter (fun ep => ep.exchangeId = exchangeId)).map
      (fun ep => ep.id)
  ({ s with exchangePrices :=
      s.exchangePrices.filter (fun ep => ep.id ∉ toDelete) },
    decide (0 < toDelete.length))

/-- Embeds `exchangePrices.sort((a, b) => parseFloat(a.price) - parseFloat(b.price))[0]`
of `getMarketDataWithBestPrices` and `updateAggregatedMarketData`.
JavaScript `Array.prototype.sort` is stable, so index 0 of the sorted array is
the first element attaining the minimum price, which this fold computes. -/
def selectBest : List ExchangePrice → Option ExchangePrice
  | [] => none
  | ep :: rest =>
      some (rest.foldl (fun best p => if p.price < best.price then p else best) ep)

/-- Total 24h volume of `updateAggregatedMarketData`:
`exchangePrices.reduce((sum, ep) => sum + parseFloat(ep.volume24h || "0"), 0)`. -/
def sumVolumes (l : List ExchangePrice) : ℚ :=
  l.foldl (fun sum ep => sum + ep.volume24h.getD 0) 0

/-- Embeds `const [baseAsset, quoteAsset] = symbol.split(sl)` (split at the
slash); a missing second component (`undefined`) is modeled as `""`. -/
def splitSymbol (symbol : String) : String × String :=
  let parts := jsSplit symbol '/'
  (parts.headD "", (parts.drop 1).headD "")

/-- Resolution of `bestExchange` in `getMarketDataWithBestPrices`:
`this.exchanges.get(id)?.displayName || "Exchange " + id` (a missing exchange
or an empty display name falls back to the generic label). -/
def resolveExchangeName (s : MemStorage) (exchangeId : ℕ) : String :=
  match getExchange s exchangeId with
  | some e => if e.displayName = "" then "Exchange " ++ toString exchangeId else e.displayName
  | none => "Exchange " ++ toString exchangeId

/-- Result shape `MarketDataWithBestPrice`: the spread market-data record is
kept as the nested `md` field. -/
structure MarketDataWithBestPrice where
  md : MarketData
  exchangePrices : List ExchangePrice
  bestPrice : ℚ
  bestExchange : String
  deriving DecidableEq, Repr

/-- Loop body of `MemStorage.getMarketDataWithBestPrices` for one stored
market-data record: keep the aggregated price under the label "Aggregated"
when no venue reports the symbol, otherwise take the lowest per-venue price
and resolve the display name of its venue. -/
def bestPriceRow (s : MemStorage) (marketData : MarketData) : MarketDataWithBestPrice :=
  match selectBest (getExchangePricesBySymbol s marketData.symbol) with
  | none =>
      { md := marketData
        exchangePrices := getExchangePricesBySymbol s marketData.symbol
        bestPrice := marketData.price
        bestExchange := "Aggregated" }
  | some bestPriceData =>
      { md := marketData
        exchangePrices := getExchangePricesBySymbol s marketData.symbol
        bestPrice := bestPriceData.price
        bestExchange := resolveExchangeName s bestPriceData.exchangeId }

/-- `MemStorage.getMarketDataWithBestPrices`: the best-price row for every
stored market-data record. -/
def getMarketDataWithBestPrices (s : MemStorage) : List MarketDataWithBestPrice :=
  s.marketData.map (fun p => bestPriceRow s p.2)

/-- One iteration of `APIManager.updateAggregatedMarketData`
(`src/server/api-manager.ts`): recompute the aggregated record of one symbol
from the stored per-venue prices (no-op when no venue reports the symbol). -/
def updateAggregatedMarketDataStep (s : MemStorage) (symbol : String) : MemStorage :=
  let exchangePrices := getExchangePricesBySymbol s symbol
  match selectBest exchangePrices with
  | none => s
  | some bestPrice =>
      let totalVolume := sumVolumes exchangePrices
      let existing := getMarketDataBySymbol s symbol
      let base := (splitSymbol symbol).1
      let quote := (splitSymbol symbol).2
      let aggregatedData : InsertMarketData :=
        { symbol := symbol
          baseAsset := base
          quoteAsset := quote
          price := bestPrice.price
          volume24h := some totalVolume
          change24h := existing.bind (fun m => m.change24h)
          changePercent24h := existing.bind (fun m => m.changePercent24h) }
      upsertMarketData s aggregatedData

/-- `APIManager.updateAggregatedMarketData`: the per-symbol recomputation over
the requested symbol list. -/
def updateAggregatedMarketData (s : MemStorage) (symbols : List String) : MemStorage :=
  symbols.foldl updateAggregatedMarketDataStep s

/-- Canonical ticker event shape shared by `BinanceTickerData`,
`KuCoinTickerData` and `BybitTickerData` (identical field lists). -/
structure TickerData where
  symbol : String
  price : ℚ
  priceChange : ℚ
  priceChangePercent : ℚ
  volume : ℚ
  lastUpdateTime : ℕ
  deriving DecidableEq, Repr

/-- `WebSocketManager.handleTickerUpdate`
(`src/server/exchanges/websocket-manager.ts`): store the per-venue price, then
upsert the aggregated market-data record with the fields of the incoming
ticker itself. -/
def handleTickerUpdate (s : MemStorage) (exchangeId : ℕ) (data : TickerData) : MemStorage :=
  let s1 := (upsertExchangePrice s
    { exchangeId := exchangeId
      symbol := data.symbol
      price := data.price
      volume24h := some data.volume }).1
  let marketData : InsertMarketData :=
    { symbol := data.symbol
      baseAsset := (splitSymbol data.symbol).1
      quoteAsset := (splitSymbol data.symbol).2
      price := data.price
      change24h := some data.priceChange
      changePercent24h := some data.priceChangePercent
      volume24h := some data.volume }
  upsertMarketData s1 marketData

/-! ## Venue stream client: reconnect state machine

`BinanceWebSocket` (`src/server/exchanges/binance-websocket.ts`),
`KuCoinWebSocket` (`src/unnamed` KuCoin stream file) and `BybitWebSocket`
(`src/WEBSOCKET_IMPLEMENTATION.md`) share verbatim-identical
reconnect/backoff/disconnect logic (`maxReconnectAttempts = 10`, delay
`Math.min(1000 * Math.pow(2, reconnectAttempts), 30000)`, an `isManualClose`
flag checked in the `close` handler, `clearTimeout` of the pending reconnect
timer inside `disconnect()`).  The machine below embeds that shared logic
once; `reconnectTimer = some d` models a pending `setTimeout` with delay `d`,
and a cleared timeout can never fire. -/

/-- Observable actions of a venue stream client. -/
inductive WSAction
  | connectAttempt
  | scheduleReconnect (delayMs : ℕ)
  | emitMaxReconnectAttempts
  | emitConnected
  | emitDisconnected
  | emitError
  deriving DecidableEq, Repr

/-- Mutable state of one venue stream client. -/
structure WSClient where
  wsOpen : Bool
  subscribedSymbols : List String
  reconnectTimer : Option ℕ
  reconnectAttempts : ℕ
  heartbeatOn : Bool
  isManualClose : Bool
  deriving DecidableEq, Repr

/-- `private maxReconnectAttempts = 10` in every stream client. -/
def maxReconnectAttemptCount : ℕ := 10

/-- Freshly constructed stream client. -/
def wsInitClient : WSClient :=
  { wsOpen := false
    subscribedSymbols := []
    reconnectTimer := none
    reconnectAttempts := 0
    heartbeatOn := false
    isManualClose := false }

/-- The `reconnect()` method: emit the terminal signal once the attempt
counter has reached the maximum, otherwise schedule a reconnect timer with
delay `min(1000 * 2 ^ attempts, 30000)` ms and increment the counter. -/
def wsReconnect (c : WSClient) : WSClient × List WSAction :=
  if c.reconnectAttempts ≥ maxReconnectAttemptCount then
    (c, [WSAction.emitMaxReconnectAttempts])
  else
    let delay := min (1000 * 2 ^ c.reconnectAttempts) 30000
    ({ c with reconnectAttempts := c.reconnectAttempts + 1
              reconnectTimer := some delay },
      [WSAction.scheduleReconnect delay])

/-- The `connect()` method: returns early when the transport is already open,
otherwise clears `isManualClose` and attempts a new transport connection. -/
def wsConnect (c : WSClient) : WSClient × List WSAction :=
  if c.wsOpen then (c, [])
  else ({ c with isManualClose := false }, [WSAction.connectAttempt])

/-- Environment events delivered to a stream client: the pending reconnect
timer firing, and the transport callbacks. -/
inductive WSEvent
  | timerFire
  | socketOpen
  | socketClose
  | socketError
  deriving DecidableEq, Repr

/-- One event-handling step of a stream client. A `timerFire` against a
cleared timer is a no-op (the semantics of `clearTimeout`); the `close`
handler checks `isManualClose` before calling `reconnect()`. -/
def wsStep (c : WSClient) : WSEvent → WSClient × List WSAction
  | WSEvent.timerFire =>
      match c.reconnectTimer with
      | none => (c, [])
      | some _ => wsConnect { c with reconnectTimer := none }
  | WSEvent.socketOpen =>
      ({ c with wsOpen := true, reconnectAttempts := 0, heartbeatOn := true },
        [WSAction.emitConnected])
  | WSEvent.socketClose =>
      let c1 := { c with wsOpen := false, heartbeatOn := false }
      if c.isManualClose then (c1, [WSAction.emitDisconnected])
      else
        let r := wsReconnect c1
        (r.1, WSAction.emitDisconnected :: r.2)
  | WSEvent.socketError => (c, [WSAction.emitError])

/-- The `disconnect()` method: set `isManualClose`, clear the pending
reconnect timer, stop the heartbeat, close the transport and drop the
subscription set. -/
def wsDisconnect (c : WSClient) : WSClient :=
  { c with isManualClose := true
           reconnectTimer := none
           heartbeatOn := false
           wsOpen := false
           subscribedSymbols := [] }

/-- Run a stream client over a sequence of environment events, collecting all
emitted actions. -/
def wsRun (c : WSClient) : List WSEvent → WSClient × List WSAction
  | [] => (c, [])
  | e :: evs =>
      let r := wsStep c e
      let rest := wsRun r.1 evs
      (rest.1, r.2 ++ rest.2)

/-- Iterated `reconnect()` calls with no intervening successful open (the
attempt counter is reset only by the `open` handler), modeling consecutive
failed reconnect attempts. -/
def wsReconnectIter (c : WSClient) : ℕ → WSClient
  | 0 => c
  | n + 1 => (wsReconnect (wsReconnectIter c n)).1

/-! ## Balance normalization (`APIManager.formatSpotBalances`) -/

/-- One entry of the flat Binance `account.balances` array. -/
structure BinanceRawBalance where
  asset : String
  free : ℚ
  locked : ℚ
  deriving DecidableEq, Repr

/-- One coin entry of a Bybit account object. -/
structure BybitRawCoin where
  coin : String
  walletBalance : ℚ
  availableToWithdraw : ℚ
  deriving DecidableEq, Repr

/-- One account object of the Bybit `result.list` array. -/
structure BybitRawAccount where
  accountType : String
  coin : List BybitRawCoin
  deriving DecidableEq, Repr

/-- One entry of the flat KuCoin accounts array. -/
structure KuCoinRawBalance where
  currency : String
  available : ℚ
  holds : ℚ
  deriving DecidableEq, Repr

/-- Raw balance payload passed to `formatSpotBalances` together with the
venue name that selects the switch branch; a missing Bybit `result.list` is
the empty account list. -/
inductive RawBalances
  | binance (balances : List BinanceRawBalance)
  | bybit (accounts : List BybitRawAccount)
  | kucoin (balances : List KuCoinRawBalance)
  deriving DecidableEq, Repr

/-- Canonical normalized balance record returned by `formatSpotBalances`. -/
structure BalanceRecord where
  asset : String
  free : ℚ
  locked : ℚ
  total : ℚ
  exchange : String
  deriving DecidableEq, Repr

/-- `APIManager.formatSpotBalances` (`src/server/api-manager.ts`): per-venue
normalization of the raw balance payload into `BalanceRecord`s. -/
def formatSpotBalances : RawBalances → List BalanceRecord
  | RawBalances.binance balances =>
      (balances.filter (fun b => 0 < b.free ∨ 0 < b.locked)).map (fun b =>
        { asset := b.asset
          free := b.free
          locked := b.locked
          total := b.free + b.locked
          exchange := "binance" })
  | RawBalances.bybit accounts =>
      (accounts.filter (fun a => a.accountType = "SPOT")).flatMap (fun account =>
        (account.coin.filter (fun c => 0 < c.walletBalance)).map (fun c =>
          { asset := c.coin
            free := c.availableToWithdraw
            locked := c.walletBalance - c.availableToWithdraw
            total := c.walletBalance
            exchange := "bybit" }))
  | RawBalances.kucoin balances =>
      (balances.filter (fun b => 0 < b.available ∨ 0 < b.holds)).map (fun b =>
        { asset := b.currency
          free := b.available
          locked := b.holds
          total := b.available + b.holds
          exchange := "kucoin" })

/-! ## Credential lifecycle (`APIManager.updateExchangeCredentials`,
`WebSocketManager.connectExchangeWebSocket`) -/

/-- The `ExchangeCredentials` input contract of `src/server/api-manager.ts`. -/
structure ExchangeCredentials where
  apiKey : String
  apiSecret : String
  passphrase : Option String
  sandboxMode : Option Bool
  deriving DecidableEq, Repr

/-- Network operations performed by the connect path (signed REST requests
and stream transport opens); in-memory storage access is not a network
operation. -/
inductive NetOp
  | restRequest (venue endpoint : String)
  | streamOpen (venue : String)
  deriving DecidableEq, Repr

/-- Typed error of the connect path: the thrown
`Error("KuCoin requires a passphrase")` is the missing-required-credential
configuration error. -/
inductive ConnectError
  | configError (msg : String)
  deriving DecidableEq, Repr

/-- JavaScript falsiness of `credentials.passphrase` in
`if (!credentials.passphrase)`: `undefined` and the empty string are falsy. -/
def isFalsyOptStr : Option String → Bool
  | none => true
  | some s => s = ""

/-- `WebSocketManager.connectExchangeWebSocket`: the KuCoin branch throws
before constructing the stream client when the passphrase is falsy; otherwise
`KuCoinWebSocket.connect` performs the signed bullet-public REST call and then
opens the transport; the Binance and Bybit branches open a public transport
directly. -/
def connectExchangeWebSocket (exchangeName : String)
    (credentials : ExchangeCredentials) : Except ConnectError (List NetOp) :=
  match jsToLower exchangeName with
  | "binance" => Except.ok [NetOp.streamOpen "binance"]
  | "kucoin" =>
      if isFalsyOptStr credentials.passphrase then
        Except.error (ConnectError.configError "KuCoin requires a passphrase")
      else
        Except.ok [NetOp.restRequest "kucoin" "/api/v1/bullet-public",
                   NetOp.streamOpen "kucoin"]
  | "bybit" => Except.ok [NetOp.streamOpen "bybit"]
  | _ => Except.ok []

/-- The partial `storage.updateExchange` performed by
`updateExchangeCredentials` before its venue switch: set the credential
fields and mark the exchange connected. -/
def updateExchangeCreds (s : MemStorage) (exchangeId : ℕ)
    (apiKey apiSecret : Option String) (sandboxMode isConnected : Bool) :
    MemStorage :=
  { s with exchanges := s.exchanges.map (fun e =>
      if e.id = exchangeId then
        { e with apiKey := apiKey, apiSecret := apiSecret,
                 sandboxMode := sandboxMode, isConnected := isConnected }
      else e) }

/-- `APIManager.updateExchangeCredentials` (`src/server/api-manager.ts`).
Returns the storage after the call, the result (`Except` models the thrown
passphrase error), and the list of network operations performed.  REST client
construction performs no I/O and is not tracked; a websocket connect failure
is caught and swallowed (and, in the only failing case modeled, performs no
network operation before throwing). -/
def updateExchangeCredentials (s : MemStorage) (exchangeId : ℕ)
    (credentials : ExchangeCredentials) :
    MemStorage × Except ConnectError Bool × List NetOp :=
  match getExchange s exchangeId with
  | none => (s, Except.ok false, [])
  | some exchange =>
      let s1 := updateExchangeCreds s exchangeId (some credentials.apiKey)
        (some credentials.apiSecret) (credentials.sandboxMode.getD false) true
      let instanceResult : Except ConnectError Bool :=
        match jsToLower exchange.name with
        | "binance" => Except.ok true
        | "bybit" => Except.ok true
        | "kucoin" =>
            if isFalsyOptStr credentials.passphrase then
              Except.error (ConnectError.configError "KuCoin requires a passphrase")
            else Except.ok true
        | _ => Except.ok false
      match instanceResult with
      | Except.error e => (s1, Except.error e, [])
      | Except.ok false => (s1, Except.ok false, [])
      | Except.ok true =>
          match connectExchangeWebSocket exchange.name credentials with
          | Except.ok ops => (s1, Except.ok true, ops)
          | Except.error _ => (s1, Except.ok true, [])

/-! ## Bulk market-data fetch with per-symbol fallback -/

/-- Binance wire symbol: `symbol.replace("/", "")` (first occurrence; the
canonical form has a single slash). -/
def binanceSymbolOf (symbol : String) : String := jsReplaceFirst symbol '/' []

/-- KuCoin wire symbol: `symbol.replace("/", "-")`. -/
def kucoinSymbolOf (symbol : String) : String := jsReplaceFirst symbol '/' ['-']

/-- One entry of the Binance bulk `/api/v3/ticker/price` response. -/
structure BinancePriceEntry where
  symbol : String
  price : ℚ
  deriving DecidableEq, Repr

/-- One entry of the Binance bulk `/api/v3/ticker/24hr` response. -/
structure BinanceStatsEntry where
  symbol : String
  priceChange : Option ℚ
  priceChangePercent : Option ℚ
  volume : Option ℚ
  deriving DecidableEq, Repr

/-- `BinanceAPI.getMultipleMarketData`: the bulk outcome (both bulk ticker
endpoints) is a parameter, as is the outcome of one individual
`getMarketData` request per wire symbol.  On bulk failure the fallback issues
one request per requested symbol in Binance wire form, each individual
failure is caught and mapped to `null`, and nulls are filtered out. -/
def binanceGetMultipleMarketData
    (bulk : Except String (List BinancePriceEntry × List BinanceStatsEntry))
    (individual : String → Except String InsertMarketData)
    (symbols : List String) : List InsertMarketData :=
  match bulk with
  | Except.ok (allPrices, all24hrStats) =>
      symbols.filterMap (fun symbol =>
        let binanceSymbol := binanceSymbolOf symbol
        match allPrices.find? (fun p => p.symbol = binanceSymbol),
              all24hrStats.find? (fun st => st.symbol = binanceSymbol) with
        | some priceData, some statsData =>
            some { symbol := symbol
                   baseAsset := (splitSymbol symbol).1
                   quoteAsset := (splitSymbol symbol).2
                   price := priceData.price
                   change24h := some (statsData.priceChange.getD 0)
                   changePercent24h := some (statsData.priceChangePercent.getD 0)
                   volume24h := some (statsData.volume.getD 0) }
        | _, _ => none)
  | Except.error _ =>
      (symbols.map binanceSymbolOf).filterMap
        (fun symbol => (individual symbol).toOption)

/-- One entry of the KuCoin bulk `allTickers` response. -/
structure KuCoinTickerEntry where
  symbol : String
  last : ℚ
  deriving DecidableEq, Repr

/-- One entry of the KuCoin bulk `stats` response. -/
structure KuCoinStatsEntry where
  symbol : String
  changePrice : Option ℚ
  changeRate : Option ℚ
  vol : Option ℚ
  deriving DecidableEq, Repr

/-- `KuCoinAPI.getMultipleMarketData` (`src/server/exchanges/kucoin-api.ts`):
same shape as the Binance version; the fallback issues one `getMarketData`
per requested canonical symbol, catching individual failures as `null` and
filtering the nulls out. -/
def kucoinGetMultipleMarketData
    (bulk : Except String (List KuCoinTickerEntry × List KuCoinStatsEntry))
    (individual : String → Except String InsertMarketData)
    (symbols : List String) : List InsertMarketData :=
  match bulk with
  | Except.ok (allTickers, allStats) =>
      symbols.filterMap (fun symbol =>
        let kucoinSymbol := kucoinSymbolOf symbol
        match allTickers.find? (fun t => t.symbol = kucoinSymbol),
              allStats.find? (fun st => st.symbol = kucoinSymbol) with
        | some ticker, some stats =>
            some { symbol := symbol
                   baseAsset := (splitSymbol symbol).1
                   quoteAsset := (splitSymbol symbol).2
                   price := ticker.last
                   change24h := some (stats.changePrice.getD 0)
                   changePercent24h := some (stats.changeRate.getD 0)
                   volume24h := some (stats.vol.getD 0) }
        | _, _ => none)
  | Except.error _ =>
      symbols.filterMap (fun symbol => (individual symbol).toOption)

/-! ## WebSocketManager.disconnectExchange -/

/-- State of `WebSocketManager`: one id-keyed client map per venue family. -/
structure WSManager where
  binanceWS : List (ℕ × WSClient)
  kucoinWS : List (ℕ × WSClient)
  bybitWS : List (ℕ × WSClient)
  deriving Repr

/-- `Map.delete` on an id-keyed client map. -/
def wsMapDelete (l : List (ℕ × WSClient)) (id : ℕ) : List (ℕ × WSClient) :=
  l.filter (fun p => p.1 ≠ id)

/-- `WebSocketManager.disconnectExchange`: disconnect and discard the venue
client, then purge the per-venue prices of that exchange from storage. -/
def disconnectExchange (wm : WSManager) (s : MemStorage) (exchangeId : ℕ)
    (exchangeName : String) : WSManager × MemStorage :=
  let wm1 :=
    match jsToLower exchangeName with
    | "binance" => { wm with binanceWS := wsMapDelete wm.binanceWS exchangeId }
    | "kucoin" => { wm with kucoinWS := wsMapDelete wm.kucoinWS exchangeId }
    | "bybit" => { wm with bybitWS := wsMapDelete wm.bybitWS exchangeId }
    | _ => wm
  (wm1, (deleteExchangePricesForExchange s exchangeId).1)

/-! ## Symbol format translation -/

/-- Binance outbound wire symbol used in subscription stream names:
`symbol.replace("/", "").toLowerCase()`. -/
def binanceOutboundSymbol (symbol : String) : String :=
  jsToLower (jsReplaceFirst symbol '/' [])

/-- `BinanceWebSocket.formatSymbol`: recover `BASE/QUOTE` from a concatenated
symbol by matching the first known quote asset suffix. -/
def binanceFormatSymbol (binanceSymbol : String) : String :=
  let quoteAssets := ["USDT", "BUSD", "BTC", "ETH", "BNB", "USDC"]
  match quoteAssets.find? (fun quote => jsEndsWith binanceSymbol quote) with
  | some quote => (jsDropRight binanceSymbol quote.data.length) ++ "/" ++ quote
  | none => binanceSymbol

/-- Bybit outbound wire symbol used in `tickers.<SYMBOL>` topics:
`symbol.replace("/", "")` (no case change). -/
def bybitOutboundSymbol (symbol : String) : String := jsReplaceFirst symbol '/' []

/-- `BybitWebSocket.formatSymbol` (from `src/WEBSOCKET_IMPLEMENTATION.md`). -/
def bybitFormatSymbol (bybitSymbol : String) : String :=
  let quoteAssets := ["USDT", "USDC", "BTC", "ETH"]
  match quoteAssets.find? (fun quote => jsEndsWith bybitSymbol quote) with
  | some quote => (jsDropRight bybitSymbol quote.data.length) ++ "/" ++ quote
  | none => bybitSymbol

/-- KuCoin inbound translation in `handleMessage`:
`data.symbol.replace("-", "/")`. -/
def kucoinInboundSymbol (kucoinSymbol : String) : String :=
  jsReplaceFirst kucoinSymbol '-' ['/']

/-! ## Initial storage and upsert sequences -/

/-- Storage state before `initializeDefaultExchanges` runs. -/
def emptyStorage : MemStorage :=
  { exchanges := []
    positions := []
    alerts := []
    orders := []
    marketData := []
    exchangePrices := []
    currentExchangeId := 1
    currentPositionId := 1
    currentAlertId := 1
    currentOrderId := 1
    currentExchangePriceId := 1 }

/-- `MemStorage.createExchange` for the default-exchange rows (no insert
defaults are exercised: every field is given, `apiKey`/`apiSecret` are
absent and become null). -/
def createExchange (s : MemStorage) (name displayName : String)
    (isConnected sandboxMode : Bool) (supportedAccountTypes : List String) :
    MemStorage :=
  let id := s.currentExchangeId
  { s with
      exchanges := s.exchanges ++
        [{ id := id
           name := name
           displayName := displayName
           isConnected := isConnected
           apiKey := none
           apiSecret := none
           sandboxMode := sandboxMode
           supportedAccountTypes := supportedAccountTypes }]
      currentExchangeId := id + 1 }

/-- The `MemStorage` constructor state: `initializeDefaultExchanges` creates
the six default venues (the deployed storage file adds no sample data). -/
def initialStorage : MemStorage :=
  createExchange (createExchange (createExchange (createExchange (createExchange
    (createExchange emptyStorage
      "kucoin" "KuCoin" true false ["spot", "futures", "margin"])
      "binance" "Binance" false true ["spot", "futures", "margin"])
      "coinbase" "Coinbase" false true ["spot"])
      "kraken" "Kraken" false true ["spot", "futures", "margin"])
      "bybit" "Bybit" false true ["spot", "futures", "perpetual"])
      "okx" "OKX" false true ["spot", "futures", "perpetual", "margin"]

/-- A sequence of `upsertExchangePrice` calls. -/
def applyExchangePriceUpserts (s : MemStorage) (l : List InsertExchangePrice) :
    MemStorage :=
  l.foldl (fun st d => (upsertExchangePrice st d).1) s

/-- Well-formedness of the per-venue price store maintained by
`upsertExchangePrice` from the empty store: map keys (ids) are distinct and
below the id counter, and `(exchangeId, symbol)` pairs are distinct. -/
def PricesWF (s : MemStorage) : Prop :=
  (s.exchangePrices.map ExchangePrice.id).Nodup ∧
  (∀ ep ∈ s.exchangePrices, ep.id < s.currentExchangePriceId) ∧
  s.exchangePrices.Pairwise
    (fun a b => ¬(a.exchangeId = b.exchangeId ∧ a.symbol = b.symbol))

/-! ## Concrete sample inputs used by the witness theorems -/

/-- Sample per-venue price: exchange 1 reports BTC/USDT at 100. -/
def sampleEp1 : ExchangePrice :=
  { id := 1, exchangeId := 1, symbol := "BTC/USDT", price := 100, volume24h := some 5 }

/-- Sample per-venue price: exchange 2 reports BTC/USDT at 99. -/
def sampleEp2 : ExchangePrice :=
  { id := 2, exchangeId := 2, symbol := "BTC/USDT", price := 99, volume24h := some 7 }

/-- Sample aggregated market-data record for BTC/USDT. -/
def sampleMd : MarketData :=
  { symbol := "BTC/USDT", baseAsset := "BTC", quoteAsset := "USDT",
    price := 100, change24h := none, changePercent24h := none, volume24h := some 3 }

/-- Sample storage: two connected venues, both reporting BTC/USDT. -/
def sampleStorage : MemStorage :=
  { exchanges :=
      [{ id := 1, name := "binance", displayName := "Binance", isConnected := true,
         apiKey := none, apiSecret := none, sandboxMode := false,
         supportedAccountTypes := ["spot"] },
       { id := 2, name := "kucoin", displayName := "KuCoin", isConnected := true,
         apiKey := none, apiSecret := none, sandboxMode := false,
         supportedAccountTypes := ["spot"] }]
    positions := []
    alerts := []
    orders := []
    marketData := [("BTC/USDT", sampleMd)]
    exchangePrices := [sampleEp1, sampleEp2]
    currentExchangeId := 3
    currentPositionId := 1
    currentAlertId := 1
    currentOrderId := 1
    currentExchangePriceId := 3 }

/-- The best-price row computed for `sampleStorage`: venue 2 wins at 99. -/
def sampleBest : MarketDataWithBestPrice :=
  { md := sampleMd
    exchangePrices := [sampleEp1, sampleEp2]
    bestPrice := 99
    bestExchange := "KuCoin" }

/-- Counterexample storage: venue 1 already reports BTC/USDT at 100 and the
aggregated record also holds 100. -/
def cexStorage : MemStorage :=
  { emptyStorage with
      marketData := [("BTC/USDT", sampleMd)]
      exchangePrices := [sampleEp1]
      currentExchangePriceId := 2 }

/-- Counterexample ticker: venue 2 pushes BTC/USDT at 200. -/
def cexTicker : TickerData :=
  { symbol := "BTC/USDT", price := 200, priceChange := 1,
    priceChangePercent := 1, volume := 9, lastUpdateTime := 0 }

/-- The successful per-symbol result of the C6 fallback scenario. -/
def scenarioEthRecord : InsertMarketData :=
  { symbol := "ETH/USDT", baseAsset := "ETH", quoteAsset := "USDT",
    price := 2500, change24h := some 1, changePercent24h := some 1,
    volume24h := some 10 }

/-- Per-symbol request oracle of the C6 scenario: the BTC request fails, the
ETH request succeeds. -/
def scenarioOracle : String → Except String InsertMarketData := fun symbol =>
  if symbol = "ETHUSDT" then Except.ok scenarioEthRecord
  else Except.error "request failed"

/-! ## Lemmas about the minimum selection -/

/-- The fold underlying `selectBest` returns one of the candidates. -/
theorem foldl_best_mem (rest : List ExchangePrice) :
    ∀ a : ExchangePrice,
      rest.foldl (fun best p => if p.price < best.price then p else best) a ∈ a :: rest := by
  induction rest with
  | nil => intro a; simp
  | cons b bs ih =>
      intro a
      rw [List.foldl_cons]
      by_cases hb : b.price < a.price
      · rw [if_pos hb]
        rcases List.mem_cons.mp (ih b) with h1 | h1
        · rw [h1]
          exact List.mem_cons.mpr (Or.inr (List.mem_cons_self b bs))
        · exact List.mem_cons.mpr (Or.inr (List.mem_cons_of_mem b h1))
      · rw [if_neg hb]
        rcases List.mem_cons.mp (ih a) with h1 | h1
        · rw [h1]
          exact List.mem_cons_self a (b :: bs)
        · exact List.mem_cons.mpr (Or.inr (List.mem_cons_of_mem b h1))

/-- The fold underlying `selectBest` returns a price lower or equal to every
candidate price. -/
theorem foldl_best_le (rest : List ExchangePrice) :
    ∀ a : ExchangePrice,
      (rest.foldl (fun best p => if p.price < best.price then p else best) a).price ≤ a.price ∧
      ∀ q ∈ rest,
        (rest.foldl (fun best p => if p.price < best.price then p else best) a).price ≤ q.price := by
  induction rest with
  | nil => intro a; exact ⟨le_refl _, by simp⟩
  | cons b bs ih =>
      intro a
      rw [List.foldl_cons]
      obtain ⟨h1, h2⟩ := ih (if b.price < a.price then b else a)
      have hab : (if b.price < a.price then b else a).price ≤ a.price := by
        by_cases hb : b.price < a.price
        · rw [if_pos hb]; exact le_of_lt hb
        · rw [if_neg hb]
      have hbb : (if b.price < a.price then b else a).price ≤ b.price := by
        by_cases hb : b.price < a.price
        · rw [if_pos hb]
        · rw [if_neg hb]; exact le_of_not_lt hb
      refine ⟨le_trans h1 hab, ?_⟩
      intro q hq
      rcases List.mem_cons.mp hq with h | h
      · rw [h]; exact le_trans h1 hbb
      · exact h2 q h

/-- `selectBest` is `none` exactly on the empty price list. -/
theorem selectBest_eq_none {l : List ExchangePrice} : selectBest l = none ↔ l = [] := by
  cases l <;> simp [selectBest]

/-- The selected best record is one of the stored records. -/
theorem selectBest_mem {l : List ExchangePrice} {ep : ExchangePrice}
    (h : selectBest l = some ep) : ep ∈ l := by
  cases l with
  | nil => simp [selectBest] at h
  | cons a rest =>
      simp only [selectBest, Option.some.injEq] at h
      rw [← h]
      exact foldl_best_mem rest a

/-- The selected best record attains the minimum price. -/
theorem selectBest_le {l : List ExchangePrice} {ep : ExchangePrice}
    (h : selectBest l = some ep) : ∀ q ∈ l, ep.price ≤ q.price := by
  cases l with
  | nil => simp [selectBest] at h
  | cons a rest =>
      simp only [selectBest, Option.some.injEq] at h
      intro q hq
      rcases List.mem_cons.mp hq with h1 | h1
      · rw [← h, h1]; exact (foldl_best_le rest a).1
      · rw [← h]; exact (foldl_best_le rest a).2 q h1

/-! ## Lemmas about the symbol-keyed market-data map -/

/-- After `mdMapSet l k v`, looking up key `k` finds `(k, v)`. -/
theorem mdMapSet_find_self (l : List (String × MarketData)) (k : String) (v : MarketData) :
    (mdMapSet l k v).find? (fun p => p.1 = k) = some (k, v) := by
  unfold mdMapSet
  by_cases hany : l.any (fun p => p.1 = k)
  · rw [if_pos hany]
    induction l with
    | nil => simp at hany
    | cons p ps ih =>
        rw [List.map_cons]
        by_cases hp : p.1 = k
        · rw [if_pos hp]
          exact List.find?_cons_of_pos _ (by simp)
        · rw [if_neg hp]
          rw [List.find?_cons_of_neg _ (by simp [hp])]
          apply ih
          simpa [List.any_cons, hp] using hany
  · rw [if_neg hany]
    induction l with
    | nil => exact List.find?_cons_of_pos _ (by simp)
    | cons p ps ih =>
        have hp : ¬ p.1 = k := by
          intro hk
          exact hany (by simp [List.any_cons, hk])
        rw [List.cons_append, List.find?_cons_of_neg _ (by simp [hp])]
        apply ih
        intro hk
        exact hany (by
          rcases List.any_eq_true.mp hk with ⟨q, hq, hqk⟩
          exact List.any_eq_true.mpr ⟨q, List.mem_cons_of_mem p hq, hqk⟩)

/-- `mdMapSet` does not disturb lookups at other keys. -/
theorem mdMapSet_find_other (l : List (String × MarketData)) (k k2 : String)
    (v : MarketData) (h : k2 ≠ k) :
    (mdMapSet l k v).find? (fun p => p.1 = k2) = l.find? (fun p => p.1 = k2) := by
  have hk2 : ¬ (k = k2) := fun he => h he.symm
  unfold mdMapSet
  by_cases hany : l.any (fun p => p.1 = k)
  · rw [if_pos hany]
    clear hany
    induction l with
    | nil => rfl
    | cons p ps ih =>
        rw [List.map_cons]
        by_cases hp : p.1 = k
        · rw [if_pos hp]
          have hp2 : ¬ (p.1 = k2) := fun he => hk2 (hp ▸ he)
          rw [List.find?_cons_of_neg _ (by simp [hk2]),
            List.find?_cons_of_neg _ (by simp [hp2])]
          exact ih
        · rw [if_neg hp]
          by_cases hp2 : p.1 = k2
          · rw [List.find?_cons_of_pos _ (by simp [hp2]),
              List.find?_cons_of_pos _ (by simp [hp2])]
          · rw [List.find?_cons_of_neg _ (by simp [hp2]),
              List.find?_cons_of_neg _ (by simp [hp2])]
            exact ih
  · rw [if_neg hany]
    clear hany
    induction l with
    | nil =>
        rw [List.nil_append, List.find?_cons_of_neg _ (by simp [hk2])]
    | cons p ps ih =>
        by_cases hp2 : p.1 = k2
        · rw [List.cons_append, List.find?_cons_of_pos _ (by simp [hp2]),
            List.find?_cons_of_pos _ (by simp [hp2])]
        · rw [List.cons_append, List.find?_cons_of_neg _ (by simp [hp2]),
            List.find?_cons_of_neg _ (by simp [hp2])]
          exact ih

/-- Lookup of the updated key after `upsertMarketData`. -/
theorem getMDBS_upsert_self (s : MemStorage) (d : InsertMarketData) :
    getMarketDataBySymbol (upsertMarketData s d) d.symbol = some d := by
  unfold getMarketDataBySymbol upsertMarketData
  rw [mdMapSet_find_self]
  rfl

/-- Lookup of any other key after `upsertMarketData`. -/
theorem getMDBS_upsert_other (s : MemStorage) (d : InsertMarketData) (k : String)
    (h : k ≠ d.symbol) :
    getMarketDataBySymbol (upsertMarketData s d) k = getMarketDataBySymbol s k := by
  unfold getMarketDataBySymbol upsertMarketData
  rw [mdMapSet_find_other _ _ _ _ h]

/-! ## Lemmas about `updateAggregatedMarketData` -/

/-- Unfolding equation of the per-symbol step when some venue reports. -/
theorem step_eq_some (s : MemStorage) (sym : String) (best : ExchangePrice)
    (hb : selectBest (getExchangePricesBySymbol s sym) = some best) :
    updateAggregatedMarketDataStep s sym = upsertMarketData s
      { symbol := sym
        baseAsset := (splitSymbol sym).1
        quoteAsset := (splitSymbol sym).2
        price := best.price
        change24h := (getMarketDataBySymbol s sym).bind (fun m => m.change24h)
        changePercent24h := (getMarketDataBySymbol s sym).bind (fun m => m.changePercent24h)
        volume24h := some (sumVolumes (getExchangePricesBySymbol s sym)) } := by
  simp only [updateAggregatedMarketDataStep]
  rw [hb]

/-- Unfolding equation of the per-symbol step when no venue reports. -/
theorem step_eq_no_venue (s : MemStorage) (sym : String)
    (hb : selectBest (getExchangePricesBySymbol s sym) = none) :
    updateAggregatedMarketDataStep s sym = s := by
  simp only [updateAggregatedMarketDataStep]
  rw [hb]

/-- The per-symbol step never touches the per-venue price store. -/
theorem step_exchangePrices (s : MemStorage) (sym : String) :
    (updateAggregatedMarketDataStep s sym).exchangePrices = s.exchangePrices := by
  cases hb : selectBest (getExchangePricesBySymbol s sym) with
  | none => rw [step_eq_no_venue s sym hb]
  | some best => rw [step_eq_some s sym best hb]; rfl

/-- The per-venue prices seen for any symbol are invariant across steps. -/
theorem step_prices_by_symbol (s : MemStorage) (sym sym2 : String) :
    getExchangePricesBySymbol (updateAggregatedMarketDataStep s sym) sym2 =
      getExchangePricesBySymbol s sym2 := by
  unfold getExchangePricesBySymbol
  rw [step_exchangePrices]

/-- The per-symbol step does not disturb the aggregated record of another
symbol. -/
theorem step_md_other (s : MemStorage) (sym sym2 : String) (h : sym2 ≠ sym) :
    getMarketDataBySymbol (updateAggregatedMarketDataStep s sym) sym2 =
      getMarketDataBySymbol s sym2 := by
  cases hb : selectBest (getExchangePricesBySymbol s sym) with
  | none => rw [step_eq_no_venue s sym hb]
  | some best =>
      rw [step_eq_some s sym best hb]
      exact getMDBS_upsert_other _ _ _ h

/-- Symbols outside the requested list keep their aggregated record. -/
theorem updateAgg_md_notmem (s : MemStorage) (symbols : List String) (sym : String)
    (h : sym ∉ symbols) :
    getMarketDataBySymbol (updateAggregatedMarketData s symbols) sym =
      getMarketDataBySymbol s sym := by
  induction symbols generalizing s with
  | nil => rfl
  | cons a rest ih =>
      have hfold : updateAggregatedMarketData s (a :: rest) =
          updateAggregatedMarketData (updateAggregatedMarketDataStep s a) rest := rfl
      have hne : sym ≠ a := fun he => h (he ▸ List.mem_cons_self a rest)
      rw [hfold, ih _ (fun hm => h (List.mem_cons_of_mem a hm)),
        step_md_other s a sym hne]

/-- After `updateAggregatedMarketData`, every requested symbol with at least
one per-venue price stores the selected best price and the summed volume. -/
theorem updateAgg_lookup (s : MemStorage) (symbols : List String) (sym : String)
    (hmem : sym ∈ symbols) (hne : getExchangePricesBySymbol s sym ≠ []) :
    ∃ best, selectBest (getExchangePricesBySymbol s sym) = some best ∧
      ∃ md, getMarketDataBySymbol (updateAggregatedMarketData s symbols) sym = some md ∧
        md.price = best.price ∧
        md.volume24h = some (sumVolumes (getExchangePricesBySymbol s sym)) := by
  induction symbols generalizing s with
  | nil => cases hmem
  | cons a rest ih =>
      have hfold : updateAggregatedMarketData s (a :: rest) =
          updateAggregatedMarketData (updateAggregatedMarketDataStep s a) rest := rfl
      by_cases hmem2 : sym ∈ rest
      · have hpre := step_prices_by_symbol s a sym
        obtain ⟨best, hb, md, hmd, h1, h2⟩ :=
          ih (updateAggregatedMarketDataStep s a) hmem2 (by rw [hpre]; exact hne)
        rw [hpre] at hb h2
        exact ⟨best, hb, md, by rw [hfold]; exact hmd, h1, h2⟩
      · have hsa : sym = a := by
          rcases List.mem_cons.mp hmem with h | h
          · exact h
          · exact absurd h hmem2
        subst hsa
        cases hb : selectBest (getExchangePricesBySymbol s sym) with
        | none => exact absurd (selectBest_eq_none.mp hb) hne
        | some best =>
            refine ⟨best, rfl, ?_⟩
            rw [hfold, updateAgg_md_notmem _ _ _ hmem2, step_eq_some s sym best hb]
            exact ⟨_, getMDBS_upsert_self _ _, rfl, rfl⟩

/-! ## Lemmas about `bestPriceRow` -/

/-- The exchange-price list attached to a best-price row. -/
theorem bestPriceRow_exchangePrices (s : MemStorage) (m : MarketData) :
    (bestPriceRow s m).exchangePrices = getExchangePricesBySymbol s m.symbol := by
  unfold bestPriceRow
  cases selectBest (getExchangePricesBySymbol s m.symbol) <;> rfl

/-- For a symbol with at least one per-venue price, the best-price row holds
the minimum price and names the venue reporting it. -/
theorem bestPriceRow_spec (s : MemStorage) (m : MarketData)
    (hne : getExchangePricesBySymbol s m.symbol ≠ []) :
    (∀ ep ∈ (bestPriceRow s m).exchangePrices, (bestPriceRow s m).bestPrice ≤ ep.price) ∧
    ∃ ep ∈ (bestPriceRow s m).exchangePrices, ep.price = (bestPriceRow s m).bestPrice ∧
      (bestPriceRow s m).bestExchange = resolveExchangeName s ep.exchangeId := by
  unfold bestPriceRow
  cases hb : selectBest (getExchangePricesBySymbol s m.symbol) with
  | none => exact absurd (selectBest_eq_none.mp hb) hne
  | some best =>
      refine ⟨fun ep hep => selectBest_le hb ep hep, best, selectBest_mem hb, rfl, rfl⟩

/-- C1: for every symbol with at least one stored per-venue exchange price,
`getMarketDataWithBestPrices` reports a best price equal to the minimum over
all stored per-venue prices together with the display name of a venue
actually reporting that minimum, and `updateAggregatedMarketData` stores for
that symbol an aggregated record whose price is that minimum and whose 24h
volume is the sum of the per-venue volumes. -/
theorem aggregation_best_price_and_volume
    (s : MemStorage) (symbols : List String) (sym : String)
    (r : MarketDataWithBestPrice)
    (hr : r ∈ getMarketDataWithBestPrices s) (hrne : r.exchangePrices ≠ [])
    (hsym : sym ∈ symbols) (hne : getExchangePricesBySymbol s sym ≠ []) :
    ((∀ ep ∈ r.exchangePrices, r.bestPrice ≤ ep.price) ∧
      ∃ ep ∈ r.exchangePrices, ep.price = r.bestPrice ∧
        r.bestExchange = resolveExchangeName s ep.exchangeId) ∧
    ∃ md, getMarketDataBySymbol (updateAggregatedMarketData s symbols) sym = some md ∧
      (∃ ep ∈ getExchangePricesBySymbol s sym, ep.price = md.price) ∧
      (∀ ep ∈ getExchangePricesBySymbol s sym, md.price ≤ ep.price) ∧
      md.volume24h = some (sumVolumes (getExchangePricesBySymbol s sym)) := by
  constructor
  · obtain ⟨p, hp, hpr⟩ := List.mem_map.mp hr
    rw [← hpr] at hrne ⊢
    rw [bestPriceRow_exchangePrices] at hrne
    exact bestPriceRow_spec s p.2 hrne
  · obtain ⟨best, hb, md, hmd, h1, h2⟩ := updateAgg_lookup s symbols sym hsym hne
    refine ⟨md, hmd, ⟨best, selectBest_mem hb, h1.symm⟩, ?_, h2⟩
    intro ep hep
    rw [h1]
    exact selectBest_le hb ep hep

/-- Witness for C1 at a concrete two-venue storage: venue 2 reports the
minimum 99 for BTC/USDT and is named as best venue; the aggregated record
stores price 99 and the summed volume. -/
theorem aggregation_best_price_and_volume_witness :
    (sampleBest ∈ getMarketDataWithBestPrices sampleStorage ∧
      sampleBest.exchangePrices ≠ [] ∧
      "BTC/USDT" ∈ ["BTC/USDT"] ∧
      getExchangePricesBySymbol sampleStorage "BTC/USDT" ≠ []) ∧
    ((∀ ep ∈ sampleBest.exchangePrices, sampleBest.bestPrice ≤ ep.price) ∧
      ∃ ep ∈ sampleBest.exchangePrices, ep.price = sampleBest.bestPrice ∧
        sampleBest.bestExchange = resolveExchangeName sampleStorage ep.exchangeId) ∧
    ∃ md, getMarketDataBySymbol
        (updateAggregatedMarketData sampleStorage ["BTC/USDT"]) "BTC/USDT" = some md ∧
      (∃ ep ∈ getExchangePricesBySymbol sampleStorage "BTC/USDT", ep.price = md.price) ∧
      (∀ ep ∈ getExchangePricesBySymbol sampleStorage "BTC/USDT", md.price ≤ ep.price) ∧
      md.volume24h = some (sumVolumes (getExchangePricesBySymbol sampleStorage "BTC/USDT")) :=
  ⟨⟨by decide, by decide, by decide, by decide⟩,
    aggregation_best_price_and_volume sampleStorage ["BTC/USDT"] "BTC/USDT" sampleBest
      (by decide) (by decide) (by decide) (by decide)⟩

/-! ## Ticker handling (C2) -/

/-- After `upsertExchangePrice`, the store holds a record carrying the
inserted pair and values (updated in place or freshly inserted). -/
theorem upsert_exchangePrice_mem (s : MemStorage) (d : InsertExchangePrice) :
    ∃ ep ∈ (upsertExchangePrice s d).1.exchangePrices,
      ep.exchangeId = d.exchangeId ∧ ep.symbol = d.symbol ∧
      ep.price = d.price ∧ ep.volume24h = d.volume24h := by
  unfold upsertExchangePrice
  cases hf : s.exchangePrices.find?
      (fun ep => ep.exchangeId = d.exchangeId ∧ ep.symbol = d.symbol) with
  | some existing =>
      refine ⟨{ id := existing.id, exchangeId := d.exchangeId, symbol := d.symbol,
                price := d.price, volume24h := d.volume24h }, ?_, rfl, rfl, rfl, rfl⟩
      have hmem := List.mem_of_find?_eq_some hf
      have hfix : (fun ep => if ep.id = existing.id then
          ({ id := existing.id, exchangeId := d.exchangeId, symbol := d.symbol,
             price := d.price, volume24h := d.volume24h } : ExchangePrice)
          else ep) existing =
          { id := existing.id, exchangeId := d.exchangeId, symbol := d.symbol,
            price := d.price, volume24h := d.volume24h } := by simp
      exact hfix ▸ List.mem_map_of_mem _ hmem
  | none =>
      refine ⟨{ id := s.currentExchangePriceId, exchangeId := d.exchangeId,
                symbol := d.symbol, price := d.price, volume24h := d.volume24h },
        ?_, rfl, rfl, rfl, rfl⟩
      exact List.mem_append_right _ (List.mem_singleton.mpr rfl)

/-- C2 counterexample: with venue 1 already reporting BTC/USDT at 100, a
well-formed BTC/USDT ticker at 200 from venue 2 leaves a stored aggregated
record whose price is 200 even though a current per-venue price (100) is
strictly lower, so `handleTickerUpdate` does not recompute the aggregation
over all current per-venue prices. -/
theorem handle_ticker_no_reaggregation_counterexample :
    ∃ md, getMarketDataBySymbol
        (handleTickerUpdate cexStorage 2 cexTicker) "BTC/USDT" = some md ∧
      md.price = 200 ∧
      ∃ ep ∈ getExchangePricesBySymbol
          (handleTickerUpdate cexStorage 2 cexTicker) "BTC/USDT",
        ep.price < md.price := by
  decide

/-- C2 (amended): on every well-formed ticker event, the manager writes the
per-venue price for the symbol and upserts the aggregated record with the
fields of the incoming ticker itself (its price, not the minimum over all
venues). -/
theorem handle_ticker_update_writes (s : MemStorage) (exchangeId : ℕ)
    (t : TickerData) :
    (∃ ep ∈ getExchangePricesBySymbol (handleTickerUpdate s exchangeId t) t.symbol,
        ep.exchangeId = exchangeId ∧ ep.price = t.price ∧
        ep.volume24h = some t.volume) ∧
    ∃ md, getMarketDataBySymbol (handleTickerUpdate s exchangeId t) t.symbol
        = some md ∧
      md.price = t.price ∧ md.change24h = some t.priceChange ∧
      md.changePercent24h = some t.priceChangePercent ∧
      md.volume24h = some t.volume := by
  constructor
  · obtain ⟨ep, hmem, h1, h2, h3, h4⟩ := upsert_exchangePrice_mem s
      { exchangeId := exchangeId, symbol := t.symbol, price := t.price,
        volume24h := some t.volume }
    refine ⟨ep, ?_, h1, h3, h4⟩
    unfold handleTickerUpdate getExchangePricesBySymbol
    exact List.mem_filter.mpr ⟨hmem, by simp [h2]⟩
  · unfold handleTickerUpdate
    exact ⟨_, getMDBS_upsert_self _ _, rfl, rfl, rfl, rfl⟩

/-! ## Reconnect backoff (C3) -/

/-- Starting from a fresh attempt counter, `k` consecutive failed reconnect
calls leave the counter at `k`, for `k` up to the maximum. -/
theorem wsReconnectIter_attempts (c : WSClient) (hc : c.reconnectAttempts = 0) :
    ∀ k, k ≤ maxReconnectAttemptCount →
      (wsReconnectIter c k).reconnectAttempts = k := by
  intro k
  induction k with
  | zero => intro _; exact hc
  | succ n ih =>
      intro hk
      have h1 := ih (Nat.le_of_succ_le hk)
      show (wsReconnect (wsReconnectIter c n)).1.reconnectAttempts = n + 1
      have hlt : ¬ ((wsReconnectIter c n).reconnectAttempts ≥ maxReconnectAttemptCount) := by
        rw [h1]
        simp only [maxReconnectAttemptCount] at hk ⊢
        omega
      unfold wsReconnect
      rw [if_neg hlt, h1]

/-- C3: for every venue stream client starting fresh, the delay scheduled
before the n-th consecutive reconnect attempt (n = 1..10) is
`min(1000 * 2 ^ (n - 1), 30000)` ms, and the 11th reconnect call schedules
nothing: it emits the terminal max-reconnect-attempts signal and leaves the
client state unchanged. -/
theorem reconnect_backoff_schedule (c : WSClient) (n : ℕ)
    (hc : c.reconnectAttempts = 0) (hn1 : 1 ≤ n) (hn10 : n ≤ 10) :
    (wsReconnect (wsReconnectIter c (n - 1))).2
        = [WSAction.scheduleReconnect (min (1000 * 2 ^ (n - 1)) 30000)] ∧
    (wsReconnect (wsReconnectIter c (n - 1))).1.reconnectTimer
        = some (min (1000 * 2 ^ (n - 1)) 30000) ∧
    (wsReconnect (wsReconnectIter c 10)).2 = [WSAction.emitMaxReconnectAttempts] ∧
    (wsReconnect (wsReconnectIter c 10)).1 = wsReconnectIter c 10 := by
  have ha := wsReconnectIter_attempts c hc (n - 1)
    (by simp only [maxReconnectAttemptCount]; omega)
  have ha10 := wsReconnectIter_attempts c hc 10
    (by simp only [maxReconnectAttemptCount]; omega)
  have hlt : ¬ ((wsReconnectIter c (n - 1)).reconnectAttempts ≥ maxReconnectAttemptCount) := by
    rw [ha]
    simp only [maxReconnectAttemptCount]
    omega
  have hge : (wsReconnectIter c 10).reconnectAttempts ≥ maxReconnectAttemptCount := by
    rw [ha10]
    simp [maxReconnectAttemptCount]
  refine ⟨?_, ?_, ?_, ?_⟩
  · unfold wsReconnect
    rw [if_neg hlt, ha]
  · unfold wsReconnect
    rw [if_neg hlt, ha]
  · unfold wsReconnect
    rw [if_pos hge]
  · unfold wsReconnect
    rw [if_pos hge]

/-- Witness for C3 at n = 3 on a fresh client: the third attempt is delayed
4000 ms and the 11th reconnect call only emits the terminal signal. -/
theorem reconnect_backoff_schedule_witness :
    (wsInitClient.reconnectAttempts = 0 ∧ 1 ≤ 3 ∧ 3 ≤ 10) ∧
    (wsReconnect (wsReconnectIter wsInitClient 2)).2
        = [WSAction.scheduleReconnect 4000] ∧
    (wsReconnect (wsReconnectIter wsInitClient 2)).1.reconnectTimer = some 4000 ∧
    (wsReconnect (wsReconnectIter wsInitClient 10)).2
        = [WSAction.emitMaxReconnectAttempts] ∧
    (wsReconnect (wsReconnectIter wsInitClient 10)).1 = wsReconnectIter wsInitClient 10 :=
  ⟨⟨rfl, by omega, by omega⟩,
    reconnect_backoff_schedule wsInitClient 3 rfl (by omega) (by omega)⟩

/-! ## No reconnect after manual disconnect (C9) -/

/-- A single step from a manually-closed state with no pending timer stays
manually closed with no pending timer, attempts no connection and schedules
no reconnect. -/
theorem wsStep_closed (c : WSClient) (e : WSEvent)
    (h1 : c.isManualClose = true) (h2 : c.reconnectTimer = none) :
    (wsStep c e).1.isManualClose = true ∧
    (wsStep c e).1.reconnectTimer = none ∧
    WSAction.connectAttempt ∉ (wsStep c e).2 ∧
    ∀ d, WSAction.scheduleReconnect d ∉ (wsStep c e).2 := by
  cases e <;> refine ⟨?_, ?_, ?_, ?_⟩ <;> simp [wsStep, wsConnect, h1, h2]

/-- Runs from a manually-closed state with no pending timer never attempt a
connection and never schedule a reconnect. -/
theorem wsRun_closed (evs : List WSEvent) :
    ∀ c : WSClient, c.isManualClose = true → c.reconnectTimer = none →
      WSAction.connectAttempt ∉ (wsRun c evs).2 ∧
      ∀ d, WSAction.scheduleReconnect d ∉ (wsRun c evs).2 := by
  induction evs with
  | nil => intro c _ _; exact ⟨by simp [wsRun], fun d => by simp [wsRun]⟩
  | cons e rest ih =>
      intro c h1 h2
      obtain ⟨g1, g2, g3, g4⟩ := wsStep_closed c e h1 h2
      obtain ⟨r1, r2⟩ := ih (wsStep c e).1 g1 g2
      have hrun : (wsRun c (e :: rest)).2
          = (wsStep c e).2 ++ (wsRun (wsStep c e).1 rest).2 := rfl
      rw [hrun]
      constructor
      · intro hmem
        rcases List.mem_append.mp hmem with h | h
        · exact g3 h
        · exact r1 h
      · intro d hmem
        rcases List.mem_append.mp hmem with h | h
        · exact g4 d h
        · exact r2 d h

/-- C9: after a manual `disconnect()` (which clears any pending reconnect
timer and sets the manual-close flag), no sequence of environment events
makes the client attempt a connection or schedule a reconnect: the pending
timer never causes a reconnection. -/
theorem no_reconnect_after_manual_disconnect (c : WSClient) (evs : List WSEvent) :
    WSAction.connectAttempt ∉ (wsRun (wsDisconnect c) evs).2 ∧
    ∀ d, WSAction.scheduleReconnect d ∉ (wsRun (wsDisconnect c) evs).2 :=
  wsRun_closed evs (wsDisconnect c) rfl rfl

/-! ## Balance normalization (C4) -/

/-- C4: for every venue payload shape, every balance record returned by
`formatSpotBalances` satisfies `total = free + locked` as exact arithmetic on
the parsed decimal values. -/
theorem balance_total_eq_free_plus_locked (raw : RawBalances) (rec : BalanceRecord)
    (h : rec ∈ formatSpotBalances raw) : rec.total = rec.free + rec.locked := by
  cases raw with
  | binance balances =>
      simp only [formatSpotBalances] at h
      obtain ⟨b, hb, hrec⟩ := List.mem_map.mp h
      rw [← hrec]
  | bybit accounts =>
      simp only [formatSpotBalances] at h
      obtain ⟨acct, hacct, hcoin⟩ := List.mem_flatMap.mp h
      obtain ⟨c, hc, hrec⟩ := List.mem_map.mp hcoin
      rw [← hrec]
      show c.walletBalance = c.availableToWithdraw + (c.walletBalance - c.availableToWithdraw)
      ring
  | kucoin balances =>
      simp only [formatSpotBalances] at h
      obtain ⟨b, hb, hrec⟩ := List.mem_map.mp h
      rw [← hrec]

/-- Witness for C4 on a concrete Binance payload entry. -/
theorem balance_total_eq_free_plus_locked_witness :
    (({ asset := "BTC", free := 1, locked := 2, total := 3,
        exchange := "binance" } : BalanceRecord)
      ∈ formatSpotBalances (RawBalances.binance
          [{ asset := "BTC", free := 1, locked := 2 }])) ∧
    (3 : ℚ) = 1 + 2 := by
  have hmem : ({ asset := "BTC", free := 1, locked := 2, total := 3,
                 exchange := "binance" } : BalanceRecord)
      ∈ formatSpotBalances (RawBalances.binance
          [{ asset := "BTC", free := 1, locked := 2 }]) := by
    norm_num [formatSpotBalances]
  exact ⟨hmem, balance_total_eq_free_plus_locked _ _ hmem⟩

/-! ## Missing passphrase fails fast (C5) -/

/-- C5: connecting the KuCoin venue with credentials lacking a passphrase
fails immediately with the typed configuration error, and zero network
operations are performed, both in `updateExchangeCredentials` and in
`connectExchangeWebSocket` (whose error branch performs no network
operation). -/
theorem kucoin_missing_passphrase_config_error
    (s : MemStorage) (exchangeId : ℕ) (credentials : ExchangeCredentials)
    (ex : Exchange) (hex : getExchange s exchangeId = some ex)
    (hname : jsToLower ex.name = "kucoin")
    (hpass : isFalsyOptStr credentials.passphrase = true) :
    (updateExchangeCredentials s exchangeId credentials).2.1
        = Except.error (ConnectError.configError "KuCoin requires a passphrase") ∧
    (updateExchangeCredentials s exchangeId credentials).2.2 = [] ∧
    connectExchangeWebSocket ex.name credentials
        = Except.error (ConnectError.configError "KuCoin requires a passphrase") := by
  refine ⟨?_, ?_, ?_⟩
  · simp [updateExchangeCredentials, hex, hname, hpass]
  · simp [updateExchangeCredentials, hex, hname, hpass]
  · simp [connectExchangeWebSocket, hname, hpass]

/-- Witness for C5: the default storage holds KuCoin as exchange 1; a
credential object without passphrase yields the typed error and an empty
network trace. -/
theorem kucoin_missing_passphrase_config_error_witness :
    (getExchange initialStorage 1 = some
        { id := 1, name := "kucoin", displayName := "KuCoin", isConnected := true,
          apiKey := none, apiSecret := none, sandboxMode := false,
          supportedAccountTypes := ["spot", "futures", "margin"] } ∧
      jsToLower "kucoin" = "kucoin" ∧
      isFalsyOptStr (none : Option String) = true) ∧
    (updateExchangeCredentials initialStorage 1
        { apiKey := "key", apiSecret := "secret", passphrase := none,
          sandboxMode := none }).2.1
      = Except.error (ConnectError.configError "KuCoin requires a passphrase") ∧
    (updateExchangeCredentials initialStorage 1
        { apiKey := "key", apiSecret := "secret", passphrase := none,
          sandboxMode := none }).2.2 = [] ∧
    connectExchangeWebSocket "kucoin"
        { apiKey := "key", apiSecret := "secret", passphrase := none,
          sandboxMode := none }
      = Except.error (ConnectError.configError "KuCoin requires a passphrase") :=
  ⟨⟨by decide, by decide, rfl⟩,
    kucoin_missing_passphrase_config_error initialStorage 1
      { apiKey := "key", apiSecret := "secret", passphrase := none,
        sandboxMode := none }
      { id := 1, name := "kucoin", displayName := "KuCoin", isConnected := true,
        apiKey := none, apiSecret := none, sandboxMode := false,
        supportedAccountTypes := ["spot", "futures", "margin"] }
      (by decide) (by decide) rfl⟩

/-! ## Bulk fetch fallback (C6) -/

/-- `Except.toOption` inverts to `Except.ok`. -/
theorem except_toOption_eq_some {ε α : Type} (e : Except ε α) (a : α) :
    e.toOption = some a ↔ e = Except.ok a := by
  cases e <;> simp [Except.toOption]

/-- C6: when the bulk all-tickers fetch fails, `getMultipleMarketData` of
both venue REST clients falls back to one request per requested symbol,
continues past individual failures, and returns exactly the records of the
symbols whose individual request succeeded (in request order); on the
concrete two-symbol scenario with one failure and one success it returns
exactly the successful record. -/
theorem bulk_fallback_partial_results (err : String)
    (fB fK : String → Except String InsertMarketData) (symbols : List String) :
    binanceGetMultipleMarketData (Except.error err) fB symbols
        = (symbols.map binanceSymbolOf).filterMap
            (fun symbol => (fB symbol).toOption) ∧
    kucoinGetMultipleMarketData (Except.error err) fK symbols
        = symbols.filterMap (fun symbol => (fK symbol).toOption) ∧
    (∀ md, md ∈ binanceGetMultipleMarketData (Except.error err) fB symbols ↔
        ∃ symbol ∈ symbols, fB (binanceSymbolOf symbol) = Except.ok md) ∧
    (∀ md, md ∈ kucoinGetMultipleMarketData (Except.error err) fK symbols ↔
        ∃ symbol ∈ symbols, fK symbol = Except.ok md) ∧
    binanceGetMultipleMarketData (Except.error err) scenarioOracle
        ["BTC/USDT", "ETH/USDT"] = [scenarioEthRecord] := by
  refine ⟨rfl, rfl, ?_, ?_, rfl⟩
  · intro md
    constructor
    · intro h
      obtain ⟨x, hx, hmd⟩ := List.mem_filterMap.mp h
      obtain ⟨symbol, hsymbol, hxs⟩ := List.mem_map.mp hx
      refine ⟨symbol, hsymbol, ?_⟩
      rw [hxs]
      exact (except_toOption_eq_some _ _).mp hmd
    · intro ⟨symbol, hsymbol, hok⟩
      exact List.mem_filterMap.mpr ⟨binanceSymbolOf symbol,
        List.mem_map_of_mem _ hsymbol, (except_toOption_eq_some _ _).mpr hok⟩
  · intro md
    constructor
    · intro h
      obtain ⟨symbol, hsymbol, hmd⟩ := List.mem_filterMap.mp h
      exact ⟨symbol, hsymbol, (except_toOption_eq_some _ _).mp hmd⟩
    · intro ⟨symbol, hsymbol, hok⟩
      exact List.mem_filterMap.mpr ⟨symbol, hsymbol,
        (except_toOption_eq_some _ _).mpr hok⟩

/-! ## Disconnect purges venue prices (C7) -/

/-- Pointwise map-equality on members (stated here to keep the development
self-contained). -/
theorem map_congr_mem {α β : Type} {l : List α} {f g : α → β}
    (h : ∀ a ∈ l, f a = g a) : l.map f = l.map g := by
  induction l with
  | nil => rfl
  | cons x xs ih =>
      rw [List.map_cons, List.map_cons, h x (List.mem_cons_self x xs),
        ih (fun a ha => h a (List.mem_cons_of_mem x ha))]

/-- With distinct map keys, deleting the collected ids removes exactly the
records of the target exchange. -/
theorem deleteExchangePrices_eq_filter (s : MemStorage) (exchangeId : ℕ)
    (hids : (s.exchangePrices.map ExchangePrice.id).Nodup) :
    (deleteExchangePricesForExchange s exchangeId).1.exchangePrices
      = s.exchangePrices.filter (fun ep => ep.exchangeId ≠ exchangeId) := by
  have hinj := List.inj_on_of_nodup_map hids
  show s.exchangePrices.filter (fun ep => ep.id ∉
        ((s.exchangePrices.filter (fun ep => ep.exchangeId = exchangeId)).map
          (fun ep => ep.id)))
      = s.exchangePrices.filter (fun ep => ep.exchangeId ≠ exchangeId)
  apply List.filter_congr
  intro ep hep
  by_cases hmatch : ep.exchangeId = exchangeId
  · have hin : ep.id ∈ (s.exchangePrices.filter
        (fun ep => ep.exchangeId = exchangeId)).map (fun ep => ep.id) :=
      List.mem_map_of_mem _ (List.mem_filter.mpr ⟨hep, by simp [hmatch]⟩)
    simp [hmatch, hin]
  · have hnot : ep.id ∉ (s.exchangePrices.filter
        (fun ep => ep.exchangeId = exchangeId)).map (fun ep => ep.id) := by
      intro hin
      obtain ⟨q, hq, hqe⟩ := List.mem_map.mp hin
      obtain ⟨hqmem, hqid⟩ := List.mem_filter.mp hq
      have hq_ep : q = ep := hinj hqmem hep hqe
      exact hmatch (by rw [← hq_ep]; simpa using hqid)
    simp [hmatch, hnot]

/-- C7: disconnecting a venue removes, within the single
`disconnectExchange` call, every per-venue price record of that venue, keeps
exactly the records of every other venue, and leaves all other storage
collections and counters unchanged. -/
theorem disconnect_purges_venue_prices (wm : WSManager) (s : MemStorage)
    (exchangeId : ℕ) (exchangeName : String)
    (hids : (s.exchangePrices.map ExchangePrice.id).Nodup) :
    (disconnectExchange wm s exchangeId exchangeName).2.exchangePrices
        = s.exchangePrices.filter (fun ep => ep.exchangeId ≠ exchangeId) ∧
    (∀ ep ∈ (disconnectExchange wm s exchangeId exchangeName).2.exchangePrices,
        ep.exchangeId ≠ exchangeId) ∧
    (∀ ep ∈ s.exchangePrices, ep.exchangeId ≠ exchangeId →
        ep ∈ (disconnectExchange wm s exchangeId exchangeName).2.exchangePrices) ∧
    (disconnectExchange wm s exchangeId exchangeName).2.exchanges = s.exchanges ∧
    (disconnectExchange wm s exchangeId exchangeName).2.positions = s.positions ∧
    (disconnectExchange wm s exchangeId exchangeName).2.alerts = s.alerts ∧
    (disconnectExchange wm s exchangeId exchangeName).2.orders = s.orders ∧
    (disconnectExchange wm s exchangeId exchangeName).2.marketData = s.marketData ∧
    (disconnectExchange wm s exchangeId exchangeName).2.currentExchangeId
        = s.currentExchangeId ∧
    (disconnectExchange wm s exchangeId exchangeName).2.currentPositionId
        = s.currentPositionId ∧
    (disconnectExchange wm s exchangeId exchangeName).2.currentAlertId
        = s.currentAlertId ∧
    (disconnectExchange wm s exchangeId exchangeName).2.currentOrderId
        = s.currentOrderId ∧
    (disconnectExchange wm s exchangeId exchangeName).2.currentExchangePriceId
        = s.currentExchangePriceId := by
  have heq : (disconnectExchange wm s exchangeId exchangeName).2.exchangePrices
      = s.exchangePrices.filter (fun ep => ep.exchangeId ≠ exchangeId) :=
    deleteExchangePrices_eq_filter s exchangeId hids
  refine ⟨heq, ?_, ?_, rfl, rfl, rfl, rfl, rfl, rfl, rfl, rfl, rfl, rfl⟩
  · intro ep hep
    rw [heq] at hep
    simpa using (List.mem_filter.mp hep).2
  · intro ep hep hne
    rw [heq]
    exact List.mem_filter.mpr ⟨hep, by simpa using hne⟩

/-- Witness for C7 on the concrete two-venue storage, disconnecting venue 1. -/
theorem disconnect_purges_venue_prices_witness :
    (sampleStorage.exchangePrices.map ExchangePrice.id).Nodup ∧
    (disconnectExchange { binanceWS := [], kucoinWS := [], bybitWS := [] }
        sampleStorage 1 "binance").2.exchangePrices
      = sampleStorage.exchangePrices.filter (fun ep => ep.exchangeId ≠ 1) ∧
    (disconnectExchange { binanceWS := [], kucoinWS := [], bybitWS := [] }
        sampleStorage 1 "binance").2.marketData = sampleStorage.marketData :=
  ⟨by decide,
    (disconnect_purges_venue_prices { binanceWS := [], kucoinWS := [], bybitWS := [] }
      sampleStorage 1 "binance" (by decide)).1,
    (disconnect_purges_venue_prices { binanceWS := [], kucoinWS := [], bybitWS := [] }
      sampleStorage 1 "binance" (by decide)).2.2.2.2.2.2.2.1⟩

/-! ## Symbol round trip (C8) -/

/-- C8 counterexample: the Binance outbound translation lowercases the
concatenated symbol, and the inbound translation matches quote suffixes
case-sensitively, so the literal composition of the two code translations is
not the identity on "BTC/USDT". -/
theorem symbol_round_trip_counterexample :
    binanceFormatSymbol (binanceOutboundSymbol "BTC/USDT") = "btcusdt" ∧
    binanceFormatSymbol (binanceOutboundSymbol "BTC/USDT") ≠ "BTC/USDT" := by
  constructor <;> decide

/-- C8 (amended): for KuCoin and Bybit the composition of the outbound and
inbound symbol translations is the identity on "BTC/USDT"; for Binance the
outbound wire form is the lowercased concatenation "btcusdt" while the
inbound translation recovers "BTC/USDT" from the uppercase native form
"BTCUSDT" that the venue reports in ticker payloads (applied to the
lowercase outbound form it returns it unchanged). -/
theorem symbol_round_trip_amended :
    kucoinInboundSymbol (kucoinSymbolOf "BTC/USDT") = "BTC/USDT" ∧
    bybitFormatSymbol (bybitOutboundSymbol "BTC/USDT") = "BTC/USDT" ∧
    binanceOutboundSymbol "BTC/USDT" = "btcusdt" ∧
    binanceFormatSymbol "BTCUSDT" = "BTC/USDT" := by
  refine ⟨?_, ?_, ?_, ?_⟩ <;> decide

/-! ## Uniqueness of per-venue price records (C10) -/

/-- Distinct `(exchangeId, symbol)` pairs give at most one record per pair. -/
theorem pairwise_pair_unique {l : List ExchangePrice}
    (h : l.Pairwise (fun a b => ¬(a.exchangeId = b.exchangeId ∧ a.symbol = b.symbol)))
    {a b : ExchangePrice} (ha : a ∈ l) (hb : b ∈ l)
    (he : a.exchangeId = b.exchangeId) (hs : a.symbol = b.symbol) : a = b := by
  induction l with
  | nil => cases ha
  | cons x xs ih =>
      obtain ⟨hx, hxs⟩ := List.pairwise_cons.mp h
      rcases List.mem_cons.mp ha with ha1 | ha1 <;>
        rcases List.mem_cons.mp hb with hb1 | hb1
      · rw [ha1, hb1]
      · subst ha1
        exact absurd ⟨he, hs⟩ (hx b hb1)
      · subst hb1
        exact absurd ⟨he.symm, hs.symm⟩ (hx a ha1)
      · exact ih hxs ha1 hb1

/-- The default storage satisfies the price-store invariant. -/
theorem pricesWF_initial : PricesWF initialStorage :=
  ⟨List.nodup_nil, fun ep hep => absurd hep (List.not_mem_nil ep), List.Pairwise.nil⟩

/-- `upsertExchangePrice` preserves the price-store invariant. -/
theorem pricesWF_upsert (s : MemStorage) (d : InsertExchangePrice)
    (h : PricesWF s) : PricesWF (upsertExchangePrice s d).1 := by
  obtain ⟨hids, hbound, hpair⟩ := h
  have hinj := List.inj_on_of_nodup_map hids
  unfold upsertExchangePrice
  cases hf : s.exchangePrices.find?
      (fun ep => ep.exchangeId = d.exchangeId ∧ ep.symbol = d.symbol) with
  | some existing =>
      have hex_mem := List.mem_of_find?_eq_some hf
      have hex_pair : existing.exchangeId = d.exchangeId ∧
          existing.symbol = d.symbol := by
        simpa using List.find?_some hf
      have hid_fix : ∀ ep ∈ s.exchangePrices,
          ((fun ep => if ep.id = existing.id then
              ({ id := existing.id, exchangeId := d.exchangeId, symbol := d.symbol,
                 price := d.price, volume24h := d.volume24h } : ExchangePrice)
            else ep) ep).id = ep.id := by
        intro ep _
        by_cases hid : ep.id = existing.id
        · simp [hid]
        · simp [hid]
      have hpair_fix : ∀ ep ∈ s.exchangePrices,
          ((fun ep => if ep.id = existing.id then
              ({ id := existing.id, exchangeId := d.exchangeId, symbol := d.symbol,
                 price := d.price, volume24h := d.volume24h } : ExchangePrice)
            else ep) ep).exchangeId = ep.exchangeId ∧
          ((fun ep => if ep.id = existing.id then
              ({ id := existing.id, exchangeId := d.exchangeId, symbol := d.symbol,
                 price := d.price, volume24h := d.volume24h } : ExchangePrice)
            else ep) ep).symbol = ep.symbol := by
        intro ep hep
        by_cases hid : ep.id = existing.id
        · have hep_ex : ep = existing := hinj hep hex_mem hid
        -- on the matched entry the pair is unchanged
          subst hep_ex
          simp [hex_pair.1.symm, hex_pair.2.symm]
        · simp [hid]
      unfold PricesWF
      refine ⟨?_, ?_, ?_⟩
      · show ((s.exchangePrices.map _).map ExchangePrice.id).Nodup
        rw [List.map_map]
        have : s.exchangePrices.map (ExchangePrice.id ∘ _) =
            s.exchangePrices.map ExchangePrice.id :=
          map_congr_mem hid_fix
        rw [this]
        exact hids
      · intro ep2 hep2
        obtain ⟨ep, hep, hfe⟩ := List.mem_map.mp hep2
        have : ep2.id = ep.id := by rw [← hfe]; exact hid_fix ep hep
        show ep2.id < s.currentExchangePriceId
        rw [this]
        exact hbound ep hep
      · apply List.pairwise_map.mpr
        apply List.Pairwise.imp_of_mem ?_ hpair
        intro a b ha hb hR hcon
        obtain ⟨hae, has⟩ := hpair_fix a ha
        obtain ⟨hbe, hbs⟩ := hpair_fix b hb
        exact hR ⟨by rw [← hae, ← hbe]; exact hcon.1,
          by rw [← has, ← hbs]; exact hcon.2⟩
  | none =>
      have hnone := List.find?_eq_none.mp hf
      unfold PricesWF
      refine ⟨?_, ?_, ?_⟩
      · rw [List.map_append]
        apply List.Nodup.append hids (List.nodup_singleton _)
        intro i hi1 hi2
        obtain ⟨ep, hep, hie⟩ := List.mem_map.mp hi1
        have hlt : i < s.currentExchangePriceId := by
          rw [← hie]; exact hbound ep hep
        have : i = s.currentExchangePriceId := by simpa using hi2
        omega
      · intro ep hep
        rcases List.mem_append.mp hep with h1 | h1
        · exact Nat.lt_trans (hbound ep h1) (Nat.lt_succ_self _)
        · have hepn : ep =
              { id := s.currentExchangePriceId, exchangeId := d.exchangeId,
                symbol := d.symbol, price := d.price, volume24h := d.volume24h } := by
            simpa using h1
          rw [hepn]
          exact Nat.lt_succ_self _
      · apply List.pairwise_append.mpr
        refine ⟨hpair, List.pairwise_singleton _ _, ?_⟩
        intro a ha b hb
        have hbnew : b =
            { id := s.currentExchangePriceId, exchangeId := d.exchangeId,
              symbol := d.symbol, price := d.price, volume24h := d.volume24h } := by
          simpa using hb
        intro hcon
        have := hnone a ha
        rw [hbnew] at hcon
        simp at this
        exact this hcon.1 hcon.2

/-- The invariant holds after any sequence of upserts from the default
storage. -/
theorem pricesWF_apply (inserts : List InsertExchangePrice) :
    PricesWF (applyExchangePriceUpserts initialStorage inserts) := by
  suffices h : ∀ s, PricesWF s → PricesWF (applyExchangePriceUpserts s inserts) from
    h _ pricesWF_initial
  induction inserts with
  | nil => intro s hs; exact hs
  | cons d rest ih => intro s hs; exact ih _ (pricesWF_upsert s d hs)

/-- C10: after any sequence of `upsertExchangePrice` calls from the initial
storage, the per-venue price store holds at most one record per
`(exchangeId, symbol)` pair, and an upsert for an already-present pair
updates that record in place: the store keeps its length, the returned record
keeps the id of the existing record and is stored, and the id counter does
not advance. -/
theorem upsert_exchange_price_unique_pair
    (inserts : List InsertExchangePrice) (d : InsertExchangePrice)
    (r : ExchangePrice)
    (hr : r ∈ (applyExchangePriceUpserts initialStorage inserts).exchangePrices)
    (he : r.exchangeId = d.exchangeId) (hs : r.symbol = d.symbol) :
    (∀ a ∈ (applyExchangePriceUpserts initialStorage inserts).exchangePrices,
      ∀ b ∈ (applyExchangePriceUpserts initialStorage inserts).exchangePrices,
        a.exchangeId = b.exchangeId → a.symbol = b.symbol → a = b) ∧
    (upsertExchangePrice (applyExchangePriceUpserts initialStorage inserts)
        d).1.exchangePrices.length
      = (applyExchangePriceUpserts initialStorage inserts).exchangePrices.length ∧
    (upsertExchangePrice (applyExchangePriceUpserts initialStorage inserts) d).2.id
      = r.id ∧
    (upsertExchangePrice (applyExchangePriceUpserts initialStorage inserts) d).2
      ∈ (upsertExchangePrice (applyExchangePriceUpserts initialStorage inserts)
          d).1.exchangePrices ∧
    (upsertExchangePrice (applyExchangePriceUpserts initialStorage inserts)
        d).1.currentExchangePriceId
      = (applyExchangePriceUpserts initialStorage inserts).currentExchangePriceId := by
  obtain ⟨hids, hbound, hpair⟩ := pricesWF_apply inserts
  refine ⟨fun a ha b hb he2 hs2 => pairwise_pair_unique hpair ha hb he2 hs2, ?_⟩
  cases hf : (applyExchangePriceUpserts initialStorage inserts).exchangePrices.find?
      (fun ep => ep.exchangeId = d.exchangeId ∧ ep.symbol = d.symbol) with
  | none =>
      have := List.find?_eq_none.mp hf r hr
      simp at this
      exact absurd hs (this he)
  | some existing =>
      have hex_mem := List.mem_of_find?_eq_some hf
      have hex_pair : existing.exchangeId = d.exchangeId ∧
          existing.symbol = d.symbol := by
        simpa using List.find?_some hf
      have hexr : existing = r :=
        pairwise_pair_unique hpair hex_mem hr
          (hex_pair.1.trans he.symm) (hex_pair.2.trans hs.symm)
      have hup : upsertExchangePrice
          (applyExchangePriceUpserts initialStorage inserts) d
          = ({ applyExchangePriceUpserts initialStorage inserts with
                exchangePrices :=
                  (applyExchangePriceUpserts initialStorage inserts).exchangePrices.map
                    (fun ep => if ep.id = existing.id then
                      ({ id := existing.id, exchangeId := d.exchangeId,
                         symbol := d.symbol, price := d.price,
                         volume24h := d.volume24h } : ExchangePrice)
                      else ep) },
              { id := existing.id, exchangeId := d.exchangeId, symbol := d.symbol,
                price := d.price, volume24h := d.volume24h }) := by
        unfold upsertExchangePrice
        rw [hf]
      rw [hup]
      refine ⟨List.length_map _ _, by rw [← hexr], ?_, rfl⟩
      have hfix : (fun ep => if ep.id = existing.id then
          ({ id := existing.id, exchangeId := d.exchangeId, symbol := d.symbol,
             price := d.price, volume24h := d.volume24h } : ExchangePrice)
          else ep) existing =
          { id := existing.id, exchangeId := d.exchangeId, symbol := d.symbol,
            price := d.price, volume24h := d.volume24h } := by simp
      exact List.mem_map.mpr ⟨existing, hex_mem, hfix⟩

/-- Witness for C10: insert one BTC/USDT record for venue 1, then upsert the
same pair with a new price; the pair stays unique, the id is preserved and no
new record is inserted. -/
theorem upsert_exchange_price_unique_pair_witness :
    (({ id := 1, exchangeId := 1, symbol := "BTC/USDT", price := 100,
        volume24h := none } : ExchangePrice)
      ∈ (applyExchangePriceUpserts initialStorage
          [{ exchangeId := 1, symbol := "BTC/USDT", price := 100,
             volume24h := none }]).exchangePrices ∧
      (1 : ℕ) = 1 ∧ "BTC/USDT" = "BTC/USDT") ∧
    (upsertExchangePrice (applyExchangePriceUpserts initialStorage
        [{ exchangeId := 1, symbol := "BTC/USDT", price := 100,
           volume24h := none }])
      { exchangeId := 1, symbol := "BTC/USDT", price := 101,
        volume24h := some 2 }).1.exchangePrices.length
      = (applyExchangePriceUpserts initialStorage
          [{ exchangeId := 1, symbol := "BTC/USDT", price := 100,
             volume24h := none }]).exchangePrices.length ∧
    (upsertExchangePrice (applyExchangePriceUpserts initialStorage
        [{ exchangeId := 1, symbol := "BTC/USDT", price := 100,
           volume24h := none }])
      { exchangeId := 1, symbol := "BTC/USDT", price := 101,
        volume24h := some 2 }).2.id = 1 :=
  ⟨⟨by decide, rfl, rfl⟩,
    (upsert_exchange_price_unique_pair
      [{ exchangeId := 1, symbol := "BTC/USDT", price := 100, volume24h := none }]
      { exchangeId := 1, symbol := "BTC/USDT", price := 101, volume24h := some 2 }
      { id := 1, exchangeId := 1, symbol := "BTC/USDT", price := 100,
        volume24h := none }
      (by decide) rfl rfl).2.1,
    (upsert_exchange_price_unique_pair
      [{ exchangeId := 1, symbol := "BTC/USDT", price := 100, volume24h := none }]
      { exchangeId := 1, symbol := "BTC/USDT", price := 101, volume24h := some 2 }
      { id := 1, exchangeId := 1, symbol := "BTC/USDT", price := 100,
        volume24h := none }
      (by decide) rfl rfl).2.2.1⟩

end CryptoTrack
